import Mathlib

/-!
Verification of the sliding-window rate limiter from `lib/rate-limiter.ts`
(`rateLimit`, `assertRateLimit`, `resetRateLimit`).

The embedding models JavaScript numbers appearing in a `RateLimitOptions`
policy as an inductive `JSNum` (a finite integer, NaN, or an infinity), so
that the `Number.isFinite` coercion in the source can be stated faithfully.
Timestamps are integers (`Date.now()` values). The module-level
`Map<string, number[]>` hit store is modelled as a total function from keys
to timestamp lists, where an absent key is identified with the empty list
(the source reads the store only through `HIT_STORE.get(key) ?? []`).
Stateful functions take the store as an explicit argument and return the
updated store.
-/

/-- A JavaScript number as it can appear in a policy field: a finite value
(restricted to integers, which is all the rate limiter is used with), NaN,
or one of the infinities. -/
inductive JSNum where
  | finite (v : Int)
  | nan
  | posInf
  | negInf
deriving DecidableEq

/-- `Number.isFinite(x)` for an optional field `x` (an absent field reads as
`undefined`, which is not finite). -/
def isFiniteNum (o : Option JSNum) : Bool :=
  match o with
  | some (JSNum.finite _) => true
  | _ => false

/-- The coercion pattern `Number.isFinite(x) ? x : dflt` from the source. -/
def coerceNum (o : Option JSNum) (dflt : Int) : Int :=
  match o with
  | some (JSNum.finite v) => v
  | _ => dflt

/-- `RateLimitOptions` from the source: both fields optional. -/
structure RateLimitOptions where
  limit : Option JSNum := none
  windowMs : Option JSNum := none
deriving DecidableEq

/-- The result object `{ ok, remaining, resetMs, limit, count }` returned by
`rateLimit`. `count` is a list length, hence a natural number; the other
numeric fields are integers. -/
structure RateLimitResult where
  ok : Bool
  remaining : Int
  resetMs : Int
  limit : Int
  count : Nat
deriving DecidableEq

/-- The `HitStore` (`Map<string, number[]>`), as a total function: an absent
key is identified with the empty list, matching `HIT_STORE.get(key) ?? []`. -/
abbrev Store := String → List Int

/-- The error thrown by `assertRateLimit`: an `Error` carrying `status` and
`retryAfterMs` fields. -/
structure RateLimitError where
  message : String
  status : Int
  retryAfterMs : Int
deriving DecidableEq

/-- `rateLimit(key, opts)` from the source, with the clock reading
`Date.now()` and the module-level store passed explicitly: coerce the policy
fields, prune the key's hits to those strictly inside the window, append the
current hit, store the pruned-plus-new list back, and compute the decision. -/
def rateLimit (key : String) (opts : RateLimitOptions) (now : Int) (store : Store) :
    RateLimitResult × Store :=
  let limit := coerceNum opts.limit 20
  let windowMs := coerceNum opts.windowMs 60000
  let windowStart := now - windowMs
  let list := store key
  let recent := list.filter (fun ts => windowStart < ts)
  let recent2 := recent ++ [now]
  let store2 : Store := fun k => if k = key then recent2 else store k
  let count := recent2.length
  let ok := decide ((count : Int) ≤ limit)
  let oldest := recent2.head?.getD now
  let resetMs := max 0 (windowMs - (now - oldest))
  let remaining := max 0 (limit - (count : Int))
  ({ ok := ok, remaining := remaining, resetMs := resetMs, limit := limit,
     count := count }, store2)

/-- `assertRateLimit(key, opts)` from the source: run `rateLimit`; if the
decision is not ok, throw an error with `status = 429` and
`retryAfterMs = r.resetMs`, otherwise return the decision. The store update
made by `rateLimit` persists in either case. -/
def assertRateLimit (key : String) (opts : RateLimitOptions) (now : Int) (store : Store) :
    Except RateLimitError RateLimitResult × Store :=
  let p := rateLimit key opts now store
  if p.1.ok then (Except.ok p.1, p.2)
  else (Except.error { message := "Rate limit exceeded", status := 429,
                       retryAfterMs := p.1.resetMs }, p.2)

/-- `resetRateLimit(key?)` from the source: delete one key's hits, or clear
the whole store when the key is omitted (deletion and an empty list coincide
in the functional store model). -/
def resetRateLimit (key : Option String) (store : Store) : Store :=
  match key with
  | some k => fun x => if x = k then [] else store x
  | none => fun _ => []

/-- A sequence of `rateLimit` calls for one key and one policy at the given
times, threading the store; returns the list of results and the final
store. -/
def runCalls (key : String) (opts : RateLimitOptions) (times : List Int) (store : Store) :
    List RateLimitResult × Store :=
  match times with
  | [] => ([], store)
  | t :: ts =>
    let p := rateLimit key opts t store
    let q := runCalls key opts ts p.2
    (p.1 :: q.1, q.2)

/-! ## Helper lemmas -/

theorem coerceNum_of_not_finite (o : Option JSNum) (d : Int) (h : isFiniteNum o = false) :
    coerceNum o d = d := by
  cases o with
  | none => rfl
  | some x => cases x with
    | finite v => simp [isFiniteNum] at h
    | nan => rfl
    | posInf => rfl
    | negInf => rfl

theorem assertRateLimit_snd (key : String) (opts : RateLimitOptions) (now : Int)
    (store : Store) :
    (assertRateLimit key opts now store).2 = (rateLimit key opts now store).2 := by
  by_cases h : (rateLimit key opts now store).1.ok <;> simp [assertRateLimit, h]

theorem rateLimit_snd_self (key : String) (opts : RateLimitOptions) (now : Int)
    (store : Store) :
    (rateLimit key opts now store).2 key
      = (store key).filter (fun ts => now - coerceNum opts.windowMs 60000 < ts) ++ [now] := by
  simp [rateLimit]

theorem rateLimit_snd_other (key other : String) (opts : RateLimitOptions) (now : Int)
    (store : Store) (h : other ≠ key) :
    (rateLimit key opts now store).2 other = store other := by
  simp [rateLimit, h]

theorem rateLimit_congr_of_eq_on_key (key : String) (opts : RateLimitOptions) (now : Int)
    (s1 s2 : Store) (h : s1 key = s2 key) :
    (rateLimit key opts now s1).1 = (rateLimit key opts now s2).1 := by
  unfold rateLimit
  rw [h]

theorem rateLimit_coerce_congr (key : String) (o1 o2 : RateLimitOptions) (now : Int)
    (store : Store)
    (h1 : coerceNum o1.limit 20 = coerceNum o2.limit 20)
    (h2 : coerceNum o1.windowMs 60000 = coerceNum o2.windowMs 60000) :
    rateLimit key o1 now store = rateLimit key o2 now store := by
  unfold rateLimit
  rw [h1, h2]

/-! ## Claim theorems -/

/-- C2 (counterexample): with policy `{limit: 2, windowMs: 1000}` and no
prior hits, the four calls at t = 0, 100, 200, 1001 do NOT return the
sequence claimed in the spec: the fourth call is denied, because the hits at
t = 100 and t = 200 are still strictly inside the window `(1, 1001]` at
t = 1001 — only the hit at t = 0 has expired. -/
theorem C2_scenario_counterexample :
    ¬ ((runCalls "k" ⟨some (JSNum.finite 2), some (JSNum.finite 1000)⟩ [0, 100, 200, 1001]
          (fun _ => [])).1.map (fun r => (r.ok, r.count, r.remaining))
        = [(true, 1, 1), (true, 2, 0), (false, 3, 0), (true, 1, 1)]) := by
  decide

/-- C2 (amended): with policy `{limit: 2, windowMs: 1000}` and no prior
hits, the calls at t = 0, 100, 200, 1001 return, in order,
`{ok: true, count: 1, remaining: 1}`, `{ok: true, count: 2, remaining: 0}`,
`{ok: false, count: 3, remaining: 0}` and `{ok: false, count: 3,
remaining: 0}`: at t = 1001 only the hit at t = 0 has expired, so the
fourth call is still denied. -/
theorem C2_scenario_amended :
    (runCalls "k" ⟨some (JSNum.finite 2), some (JSNum.finite 1000)⟩ [0, 100, 200, 1001]
        (fun _ => [])).1.map (fun r => (r.ok, r.count, r.remaining))
      = [(true, 1, 1), (true, 2, 0), (false, 3, 0), (false, 3, 0)] := by
  decide

/-- C3: on every call to `rateLimit` at time `now` with window `W`, the
stored sequence afterwards is exactly the old hits with timestamp strictly
greater than `now - W`, followed by the new hit; the count is the number of
strict survivors plus one; and a stored hit at exactly `now - W` is not
among the survivors of the prune. -/
theorem C3_boundary_exclusion (key : String) (L W now : Int) (store : Store) :
    (rateLimit key ⟨some (JSNum.finite L), some (JSNum.finite W)⟩ now store).2 key
      = (store key).filter (fun ts => now - W < ts) ++ [now]
  ∧ (rateLimit key ⟨some (JSNum.finite L), some (JSNum.finite W)⟩ now store).1.count
      = ((store key).filter (fun ts => now - W < ts)).length + 1
  ∧ now - W ∉ (store key).filter (fun ts => now - W < ts) := by
  refine ⟨by simp [rateLimit, coerceNum], by simp [rateLimit, coerceNum], ?_⟩
  intro hmem
  have h := (List.mem_filter.mp hmem).2
  simp at h

/-- C4: `assertRateLimit` leaves the store exactly as `rateLimit` does, and
its outcome is determined by the same underlying decision: the decision's
result when `ok = true`, and otherwise an error carrying `status = 429` and
`retryAfterMs` equal to the decision's `resetMs`. -/
theorem C4_assert_agreement (key : String) (opts : RateLimitOptions) (now : Int)
    (store : Store) :
    (assertRateLimit key opts now store).2 = (rateLimit key opts now store).2
  ∧ (assertRateLimit key opts now store).1
      = (if (rateLimit key opts now store).1.ok then
            Except.ok (rateLimit key opts now store).1
         else
            Except.error { message := "Rate limit exceeded", status := 429,
                           retryAfterMs := (rateLimit key opts now store).1.resetMs }) := by
  refine ⟨assertRateLimit_snd key opts now store, ?_⟩
  by_cases h : (rateLimit key opts now store).1.ok <;> simp [assertRateLimit, h]

/-- C6: every `rateLimit` result satisfies
`remaining = max 0 (limit - count)`, hence `remaining` is non-negative, and
`remaining = 0` whenever `ok = false`. -/
theorem C6_remaining_consistency (key : String) (opts : RateLimitOptions) (now : Int)
    (store : Store) :
    (rateLimit key opts now store).1.remaining
      = max 0 ((rateLimit key opts now store).1.limit
          - ((rateLimit key opts now store).1.count : Int))
  ∧ 0 ≤ (rateLimit key opts now store).1.remaining
  ∧ ((rateLimit key opts now store).1.ok = false
      → (rateLimit key opts now store).1.remaining = 0) := by
  refine ⟨rfl, le_max_left 0 _, ?_⟩
  intro h
  simp only [rateLimit, decide_eq_false_iff_not, not_le] at h ⊢
  omega

/-- C6 witness: the consistency facts hold at a concrete call. -/
theorem C6_remaining_consistency_witness :
    (rateLimit "k" {} 0 (fun _ => [])).1.remaining
      = max 0 ((rateLimit "k" {} 0 (fun _ => [])).1.limit
          - ((rateLimit "k" {} 0 (fun _ => [])).1.count : Int))
  ∧ 0 ≤ (rateLimit "k" {} 0 (fun _ => [])).1.remaining
  ∧ ((rateLimit "k" {} 0 (fun _ => [])).1.ok = false
      → (rateLimit "k" {} 0 (fun _ => [])).1.remaining = 0) :=
  C6_remaining_consistency "k" {} 0 (fun _ => [])

/-- C5: a non-finite (or absent) `limit` field behaves exactly as
`limit = 20`, a non-finite (or absent) `windowMs` field behaves exactly as
`windowMs = 60000` (each independently of the other field), and an omitted
policy behaves exactly as `{limit: 20, windowMs: 60000}`; the whole outcome
(decision and store) coincides with the defaulted call, and no failure is
possible since the embedded `rateLimit` is total. -/
theorem C5_default_coercion (key : String) (now : Int) (store : Store)
    (lo wo l w : Option JSNum)
    (hl : isFiniteNum lo = false) (hw : isFiniteNum wo = false) :
    rateLimit key ⟨lo, w⟩ now store
      = rateLimit key ⟨some (JSNum.finite 20), w⟩ now store
  ∧ rateLimit key ⟨l, wo⟩ now store
      = rateLimit key ⟨l, some (JSNum.finite 60000)⟩ now store
  ∧ rateLimit key {} now store
      = rateLimit key ⟨some (JSNum.finite 20), some (JSNum.finite 60000)⟩ now store := by
  have hl20 : coerceNum lo 20 = 20 := coerceNum_of_not_finite lo 20 hl
  have hw60 : coerceNum wo 60000 = 60000 := coerceNum_of_not_finite wo 60000 hw
  refine ⟨?_, ?_, ?_⟩
  · exact rateLimit_coerce_congr key ⟨lo, w⟩ ⟨some (JSNum.finite 20), w⟩ now store
      (by rw [show (⟨lo, w⟩ : RateLimitOptions).limit = lo from rfl, hl20]; rfl) rfl
  · exact rateLimit_coerce_congr key ⟨l, wo⟩ ⟨l, some (JSNum.finite 60000)⟩ now store rfl
      (by rw [show (⟨l, wo⟩ : RateLimitOptions).windowMs = wo from rfl, hw60]; rfl)
  · exact rateLimit_coerce_congr key {}
      ⟨some (JSNum.finite 20), some (JSNum.finite 60000)⟩ now store rfl rfl

/-- C5 witness: a NaN `limit` and an absent `windowMs` are coerced to the
defaults at a concrete call. -/
theorem C5_default_coercion_witness :
    isFiniteNum (some JSNum.nan) = false
  ∧ isFiniteNum (none : Option JSNum) = false
  ∧ (rateLimit "k" ⟨some JSNum.nan, some (JSNum.finite 500)⟩ 7 (fun _ => [])
      = rateLimit "k" ⟨some (JSNum.finite 20), some (JSNum.finite 500)⟩ 7 (fun _ => [])
    ∧ rateLimit "k" ⟨some (JSNum.finite 3), none⟩ 7 (fun _ => [])
        = rateLimit "k" ⟨some (JSNum.finite 3), some (JSNum.finite 60000)⟩ 7 (fun _ => [])
    ∧ rateLimit "k" {} 7 (fun _ => [])
        = rateLimit "k" ⟨some (JSNum.finite 20), some (JSNum.finite 60000)⟩ 7
            (fun _ => [])) :=
  ⟨rfl, rfl,
    C5_default_coercion "k" 7 (fun _ => []) (some JSNum.nan) none
      (some (JSNum.finite 3)) (some (JSNum.finite 500)) rfl rfl⟩

/-- C9: a finite `limit ≤ 0` is not replaced by the default 20: the result
echoes it in its `limit` field, and since the just-recorded hit makes
`count ≥ 1`, the call is denied with `remaining = 0`. -/
theorem C9_nonpositive_limit (key : String) (L : Int) (wo : Option JSNum) (now : Int)
    (store : Store) (hL : L ≤ 0) :
    (rateLimit key ⟨some (JSNum.finite L), wo⟩ now store).1.limit = L
  ∧ (rateLimit key ⟨some (JSNum.finite L), wo⟩ now store).1.ok = false
  ∧ (rateLimit key ⟨some (JSNum.finite L), wo⟩ now store).1.remaining = 0 := by
  refine ⟨rfl, ?_, ?_⟩
  · simp only [rateLimit, coerceNum, decide_eq_false_iff_not, not_le,
      List.length_append, List.length_cons, List.length_nil]
    push_cast
    omega
  · simp only [rateLimit, coerceNum, List.length_append, List.length_cons,
      List.length_nil]
    push_cast
    omega

/-- C9 witness: a call with `limit = 0` keeps the 0 and is denied. -/
theorem C9_nonpositive_limit_witness :
    (0 : Int) ≤ 0
  ∧ ((rateLimit "k" ⟨some (JSNum.finite 0), none⟩ 5 (fun _ => [])).1.limit = 0
    ∧ (rateLimit "k" ⟨some (JSNum.finite 0), none⟩ 5 (fun _ => [])).1.ok = false
    ∧ (rateLimit "k" ⟨some (JSNum.finite 0), none⟩ 5 (fun _ => [])).1.remaining = 0) :=
  ⟨le_refl 0, C9_nonpositive_limit "k" 0 none 5 (fun _ => []) (le_refl 0)⟩

/-- C10: `assertRateLimit` mutates the store exactly as `rateLimit` does —
whether it returns or throws — so the current timestamp is already appended
to the key's sequence (after the prune) when the decision is made, and a
denied attempt still counts toward the window for later calls. -/
theorem C10_denied_attempts_recorded (key : String) (opts : RateLimitOptions) (now : Int)
    (store : Store) :
    (assertRateLimit key opts now store).2 = (rateLimit key opts now store).2
  ∧ (assertRateLimit key opts now store).2 key
      = (store key).filter (fun ts => now - coerceNum opts.windowMs 60000 < ts) ++ [now]
  ∧ now ∈ (assertRateLimit key opts now store).2 key := by
  refine ⟨assertRateLimit_snd key opts now store, ?_, ?_⟩
  · rw [assertRateLimit_snd key opts now store]
    exact rateLimit_snd_self key opts now store
  · rw [assertRateLimit_snd key opts now store, rateLimit_snd_self key opts now store]
    simp

/-- C8: operations on key `A` (a `rateLimit` call, an `assertRateLimit`
call, or `resetRateLimit(A)`) leave a distinct key `B`'s stored sequence
unchanged, and a subsequent `rateLimit` call for `B` returns the same
decision as if the operation on `A` had not happened. -/
theorem C8_per_key_isolation (A B : String) (opts opts2 : RateLimitOptions)
    (now now2 : Int) (store : Store) (hne : A ≠ B) :
    (rateLimit A opts now store).2 B = store B
  ∧ (assertRateLimit A opts now store).2 B = store B
  ∧ resetRateLimit (some A) store B = store B
  ∧ (rateLimit B opts2 now2 ((rateLimit A opts now store).2)).1
      = (rateLimit B opts2 now2 store).1
  ∧ (rateLimit B opts2 now2 ((assertRateLimit A opts now store).2)).1
      = (rateLimit B opts2 now2 store).1
  ∧ (rateLimit B opts2 now2 (resetRateLimit (some A) store)).1
      = (rateLimit B opts2 now2 store).1 := by
  have hBA : B ≠ A := fun h => hne h.symm
  have h1 : (rateLimit A opts now store).2 B = store B :=
    rateLimit_snd_other A B opts now store hBA
  have h2 : (assertRateLimit A opts now store).2 B = store B := by
    rw [assertRateLimit_snd A opts now store]; exact h1
  have h3 : resetRateLimit (some A) store B = store B := by
    simp [resetRateLimit, hBA]
  exact ⟨h1, h2, h3,
    rateLimit_congr_of_eq_on_key B opts2 now2 _ store h1,
    rateLimit_congr_of_eq_on_key B opts2 now2 _ store h2,
    rateLimit_congr_of_eq_on_key B opts2 now2 _ store h3⟩

/-- C8 witness: isolation of keys "a" and "b" at a concrete state. -/
theorem C8_per_key_isolation_witness :
    "a" ≠ "b"
  ∧ ((rateLimit "a" {} 5 (fun _ => [1])).2 "b" = (fun _ => ([1] : List Int)) "b"
    ∧ (assertRateLimit "a" {} 5 (fun _ => [1])).2 "b" = (fun _ => ([1] : List Int)) "b"
    ∧ resetRateLimit (some "a") (fun _ => [1]) "b" = (fun _ => ([1] : List Int)) "b"
    ∧ (rateLimit "b" {} 6 ((rateLimit "a" {} 5 (fun _ => [1])).2)).1
        = (rateLimit "b" {} 6 (fun _ => [1])).1
    ∧ (rateLimit "b" {} 6 ((assertRateLimit "a" {} 5 (fun _ => [1])).2)).1
        = (rateLimit "b" {} 6 (fun _ => [1])).1
    ∧ (rateLimit "b" {} 6 (resetRateLimit (some "a") (fun _ => [1]))).1
        = (rateLimit "b" {} 6 (fun _ => [1])).1) :=
  ⟨by decide, C8_per_key_isolation "a" "b" {} {} 5 6 (fun _ => [1]) (by decide)⟩

theorem head_getD_append_single (l : List Int) (d : Int) :
    (l ++ [d]).head?.getD d = l.head?.getD d := by
  cases l <;> simp

theorem head_getD_le_of_sorted (l : List Int) (d : Int) (hs : l.Pairwise (· ≤ ·)) :
    ∀ t ∈ l, l.head?.getD d ≤ t := by
  cases l with
  | nil => intro t ht; cases ht
  | cons x xs =>
    intro t ht
    simp only [List.head?_cons, Option.getD_some]
    rcases List.mem_cons.mp ht with h | h
    · exact le_of_eq h.symm
    · exact (List.pairwise_cons.mp hs).1 t h

/-- C7: on a call at time `now` with window `W` against a key whose stored
sequence is sorted (the store invariant: hits are appended in time order),
the returned `resetMs` equals `max 0 (W - (now - oldest))` where `oldest` is
the earliest timestamp surviving the prune, or `now` itself when none
survives; `resetMs` is never negative, and the surviving sequence's first
element really is its least element. -/
theorem C7_reset_metadata (key : String) (L W now : Int) (store : Store)
    (hsorted : (store key).Pairwise (· ≤ ·)) :
    (rateLimit key ⟨some (JSNum.finite L), some (JSNum.finite W)⟩ now store).1.resetMs
      = max 0 (W - (now - ((store key).filter (fun ts => now - W < ts)).head?.getD now))
  ∧ 0 ≤ (rateLimit key ⟨some (JSNum.finite L), some (JSNum.finite W)⟩ now store).1.resetMs
  ∧ ∀ t ∈ (store key).filter (fun ts => now - W < ts),
      ((store key).filter (fun ts => now - W < ts)).head?.getD now ≤ t := by
  have h1 : (rateLimit key ⟨some (JSNum.finite L), some (JSNum.finite W)⟩ now
        store).1.resetMs
      = max 0 (W - (now
          - ((store key).filter (fun ts => now - W < ts)).head?.getD now)) := by
    simp only [rateLimit, coerceNum]
    rw [head_getD_append_single]
  refine ⟨h1, by rw [h1]; exact le_max_left 0 _, ?_⟩
  exact head_getD_le_of_sorted _ now (hsorted.filter _)

/-- C7 witness: the reset formula at a concrete sorted state. -/
theorem C7_reset_metadata_witness :
    ((fun k => if k = "k" then [1, 3] else []) "k" : List Int).Pairwise (· ≤ ·)
  ∧ ((rateLimit "k" ⟨some (JSNum.finite 2), some (JSNum.finite 10)⟩ 4
        (fun k => if k = "k" then [1, 3] else [])).1.resetMs
      = max 0 (10 - (4 - (((fun k => if k = "k" then [1, 3] else []) "k" : List Int).filter
            (fun ts => 4 - 10 < ts)).head?.getD 4))
    ∧ 0 ≤ (rateLimit "k" ⟨some (JSNum.finite 2), some (JSNum.finite 10)⟩ 4
        (fun k => if k = "k" then [1, 3] else [])).1.resetMs
    ∧ ∀ t ∈ (((fun k => if k = "k" then [1, 3] else []) "k" : List Int).filter
          (fun ts => 4 - 10 < ts)),
        (((fun k => if k = "k" then [1, 3] else []) "k" : List Int).filter
          (fun ts => 4 - 10 < ts)).head?.getD 4 ≤ t) :=
  ⟨by decide,
    C7_reset_metadata "k" 2 10 4 (fun k => if k = "k" then [1, 3] else []) (by decide)⟩

theorem runCalls_counts (key : String) (N W : Int) (times : List Int) :
    ∀ (store : Store) (acc : List Int), store key = acc →
      (∀ t ∈ times, ∀ a ∈ acc, t - W < a) →
      times.Pairwise (fun a b => b - W < a) →
      (runCalls key ⟨some (JSNum.finite N), some (JSNum.finite W)⟩ times store).1.map
          (fun r => (r.count, r.ok))
        = (List.range' (acc.length + 1) times.length).map
            (fun c : Nat => (c, decide ((c : Int) ≤ N))) := by
  induction times with
  | nil => intro store acc _ _ _; rfl
  | cons t ts ih =>
    intro store acc hacc hwin hpair
    have hfilter : (store key).filter (fun u => t - W < u) = acc := by
      rw [hacc]
      exact List.filter_eq_self.mpr
        (fun a ha => decide_eq_true (hwin t (List.mem_cons_self t ts) a ha))
    have hcount : (rateLimit key ⟨some (JSNum.finite N), some (JSNum.finite W)⟩ t
        store).1.count = acc.length + 1 := by
      simp [rateLimit, coerceNum, hfilter]
    have hok : (rateLimit key ⟨some (JSNum.finite N), some (JSNum.finite W)⟩ t
        store).1.ok = decide (((acc.length + 1 : Nat) : Int) ≤ N) := by
      simp [rateLimit, coerceNum, hfilter]
    have hsnd : (rateLimit key ⟨some (JSNum.finite N), some (JSNum.finite W)⟩ t
        store).2 key = acc ++ [t] := by
      simp [rateLimit, coerceNum, hfilter]
    have hwin2 : ∀ u ∈ ts, ∀ a ∈ acc ++ [t], u - W < a := by
      intro u hu a ha
      rcases List.mem_append.mp ha with h | h
      · exact hwin u (List.mem_cons_of_mem t hu) a h
      · rw [List.mem_singleton.mp h]
        exact (List.pairwise_cons.mp hpair).1 u hu
    have hrec := ih (rateLimit key ⟨some (JSNum.finite N), some (JSNum.finite W)⟩ t
        store).2 (acc ++ [t]) hsnd hwin2 (List.pairwise_cons.mp hpair).2
    simp only [runCalls, List.map_cons, hrec, hcount, hok, List.length_append,
      List.length_cons, List.length_nil, List.range'_succ, List.cons.injEq]

theorem decide_le_range'_map (N : Nat) :
    (List.range' 1 (N + 1)).map (fun c : Nat => decide ((c : Int) ≤ (N : Int)))
      = List.replicate N true ++ [false] := by
  rw [List.range'_concat, List.map_append]
  congr 1
  · rw [List.eq_replicate_iff]
    refine ⟨by simp, ?_⟩
    intro b hb
    rcases List.mem_map.mp hb with ⟨c, hc, hceq⟩
    rw [← hceq]
    have hcr := List.mem_range'_1.mp hc
    exact decide_eq_true (by omega)
  · simp only [List.map_cons, List.map_nil, List.cons.injEq, and_true]
    simp only [decide_eq_false_iff_not, not_le]
    omega

/-- C1: for a key with no stored hits and a policy with a positive integer
limit `N` and positive window `W`, a run of `N + 1` calls at non-decreasing
times that all lie strictly within `W` of the first call returns `ok = true`
for each of the first `N` calls and `ok = false` for the `(N+1)`-th: the
triggering hit counts toward its own limit. -/
theorem C1_monotonic_admission (key : String) (N : Nat) (W t0 : Int) (rest : List Int)
    (store : Store) (hN : 0 < N) (hW : 0 < W) (hempty : store key = [])
    (hlen : rest.length = N)
    (hsorted : (t0 :: rest).Pairwise (· ≤ ·))
    (hwin : ∀ t ∈ t0 :: rest, t < t0 + W) :
    (runCalls key ⟨some (JSNum.finite (N : Int)), some (JSNum.finite W)⟩ (t0 :: rest)
        store).1.map (fun r => r.ok)
      = List.replicate N true ++ [false] := by
  have hpair : (t0 :: rest).Pairwise (fun a b => b - W < a) := by
    refine hsorted.imp_of_mem ?_
    intro a b ha hb hab
    have h1 : t0 ≤ a := by
      rcases List.mem_cons.mp ha with h | h
      · rw [h]
      · exact (List.pairwise_cons.mp hsorted).1 a h
    have h2 : b < t0 + W := hwin b hb
    omega
  have hcounts := runCalls_counts key (N : Int) W (t0 :: rest) store [] hempty
    (by intro t _ a ha; cases ha) hpair
  have hmap : (runCalls key ⟨some (JSNum.finite (N : Int)), some (JSNum.finite W)⟩
        (t0 :: rest) store).1.map (fun r => r.ok)
      = ((runCalls key ⟨some (JSNum.finite (N : Int)), some (JSNum.finite W)⟩
          (t0 :: rest) store).1.map (fun r => (r.count, r.ok))).map Prod.snd := by
    rw [List.map_map]
    rfl
  rw [hmap, hcounts, List.map_map]
  simp only [List.length_nil, List.length_cons, hlen, Nat.zero_add]
  exact decide_le_range'_map N

/-- C1 witness: with limit 1 and window 10, calls at t = 0 and t = 5 return
`ok = true` then `ok = false`. -/
theorem C1_monotonic_admission_witness :
    (0 < 1 ∧ (0 : Int) < 10)
  ∧ (runCalls "k" ⟨some (JSNum.finite 1), some (JSNum.finite 10)⟩ [0, 5]
      (fun _ => [])).1.map (fun r => r.ok) = List.replicate 1 true ++ [false] :=
  ⟨⟨by decide, by decide⟩,
    C1_monotonic_admission "k" 1 10 0 [5] (fun _ => []) (by decide) (by decide) rfl rfl
      (by decide) (by decide)⟩
